import Mathlib

/-!
Verification of the treedee demo core: the raymarching SDF evaluator
(smooth-minimum blending of per-blob signed distance fields), the sphere
tracer of the fragment shader, and the damped orbit-camera controller.
Shader and controller arithmetic is embedded over the real numbers; the
IEEE finiteness model near the end tracks which values of the pointer
velocity computation are finite floats.
-/

open Real Filter

noncomputable section

namespace Treedee

/-- 2-component vector (normalized pointer coordinates). -/
structure Vec2 where
  x : ℝ
  y : ℝ

/-- 3-component vector (world positions and directions). -/
structure Vec3 where
  x : ℝ
  y : ℝ
  z : ℝ

/-- 4-component vector (rgba colors). -/
structure Vec4 where
  x : ℝ
  y : ℝ
  z : ℝ
  w : ℝ

attribute [ext] Vec2 Vec3 Vec4

def v3zero : Vec3 := ⟨0, 0, 0⟩

def v4zero : Vec4 := ⟨0, 0, 0, 0⟩

def v3add (a b : Vec3) : Vec3 := ⟨a.x + b.x, a.y + b.y, a.z + b.z⟩

def v3sub (a b : Vec3) : Vec3 := ⟨a.x - b.x, a.y - b.y, a.z - b.z⟩

/-- Scalar multiple of a vector, as in `rayDir * t`. -/
def v3smul (t : ℝ) (v : Vec3) : Vec3 := ⟨t * v.x, t * v.y, t * v.z⟩

/-- WGSL `length`: Euclidean norm of a 3-vector. -/
def length3 (v : Vec3) : ℝ := Real.sqrt (v.x * v.x + v.y * v.y + v.z * v.z)

/-- WGSL `mix(e1, e2, t) = e1 * (1 - t) + e2 * t`, componentwise on colors. -/
def mix4 (a b : Vec4) (t : ℝ) : Vec4 :=
  ⟨a.x * (1 - t) + b.x * t, a.y * (1 - t) + b.y * t,
   a.z * (1 - t) + b.z * t, a.w * (1 - t) + b.w * t⟩

/-- `clamp` from app.ts: `Math.max(a, Math.min(b, x))`. -/
def clamp (x a b : ℝ) : ℝ := max a (min b x)

/-- A blob record: implicit sphere with a color. -/
structure Blob where
  position : Vec3
  radius : ℝ
  color : Vec4

/-- Return type of `smin` in the raymarch shader. -/
structure SmoothMin where
  min : ℝ
  blend : ℝ

/-- Return type of `sdf` in the raymarch shader. -/
structure SDFValue where
  dist : ℝ
  normal : Vec3
  color : Vec4

attribute [ext] SmoothMin SDFValue

/-- The quadratic polynomial smooth minimum from the raymarch shader. -/
def smin (a b k : ℝ) : SmoothMin :=
  let h := 1 - min (|a - b| / (4 * k)) 1
  let w := h * h
  let m := w * 0.5
  let s := w * k
  if a < b then ⟨a - s, m⟩ else ⟨b - s, 1 - m⟩

/-- `sdBlob`: signed distance from a point to the sphere of one blob. -/
def sdBlob (p : Vec3) (blob : Blob) : ℝ :=
  length3 (v3sub p blob.position) - blob.radius

/-- One iteration of the loop body of `sdf`: fold the blob into the running
distance via `smin` and the running color via `mix`. -/
def sdfStep (p : Vec3) (result : SDFValue) (blob : Blob) : SDFValue :=
  let m := smin result.dist (sdBlob p blob) 0.2
  ⟨m.min, result.normal, mix4 result.color blob.color m.blend⟩

/-- The initial running color is `blobs[0].color`; for an empty collection the
robust out-of-bounds read of WGSL is modelled as the zero vector. -/
def initColor (blobs : List Blob) : Vec4 :=
  match blobs with
  | [] => v4zero
  | blob :: _ => blob.color

/-- The blended SDF evaluator `sdf` from the raymarch shader: distance starts
at the sentinel 999999, color at `blobs[0].color`, then every blob is folded
in with `smin` and `mix`. -/
def sdf (blobs : List Blob) (p : Vec3) : SDFValue :=
  List.foldl (sdfStep p) ⟨999999, v3zero, initColor blobs⟩ blobs

def epsilon : ℝ := 0.01

def maxDist : ℝ := 1000

def maxIterations : ℕ := 128

/-- The sphere-tracing loop of the fragment shader `fs`, with explicit fuel.
It returns the last SDF result, the final ray parameter `t`, and the number
of `sdf` evaluations performed. -/
def fsLoop (blobs : List Blob) (origin dir : Vec3) :
    ℕ → ℝ → SDFValue → SDFValue × ℝ × ℕ
  | 0, t, result => (result, t, 0)
  | fuel + 1, t, _ =>
    let result := sdf blobs (v3add origin (v3smul t dir))
    if result.dist < epsilon then
      (result, t, 1)
    else
      let t2 := t + result.dist
      if maxDist < t2 then
        (result, t2, 1)
      else
        let r := fsLoop blobs origin dir fuel t2 result
        (r.1, r.2.1, r.2.2 + 1)

/-- Result of one tracer invocation: `hit` is the final test
`result.dist < epsilon` of the fragment shader. -/
structure TraceResult where
  hit : Prop
  distanceTraveled : ℝ
  color : Vec4
  evals : ℕ

/-- The sphere tracer of the fragment shader: 128 iterations starting from
`t = 0` with a zero-initialized `SDFValue`. -/
def trace (blobs : List Blob) (origin dir : Vec3) : TraceResult :=
  let r := fsLoop blobs origin dir maxIterations 0 ⟨0, v3zero, v4zero⟩
  ⟨r.1.dist < epsilon, r.2.1, r.1.color, r.2.2⟩

/-- Orbit camera state `orbitCam` from app.ts: distance, pitch angle `ax`,
yaw angle `az`, and their velocities. The derived position vector is computed
from these three scalars each frame and is not part of the claims. -/
structure OrbitCam where
  dist : ℝ
  ax : ℝ
  az : ℝ
  vdist : ℝ
  vax : ℝ
  vaz : ℝ

/-- Pointer state: button flag and current/previous normalized positions. -/
structure Pointer where
  down : Bool
  pos : Vec2
  prevPos : Vec2

attribute [ext] OrbitCam Pointer

/-- Initial orbit state of app.ts. -/
def initialOrbitCam : OrbitCam := ⟨5, 0, 0, 0, -2, 20⟩

/-- The drag velocity `(pointer.pos - pointer.prevPos) / dt * -50`.
Over the reals, division by zero yields 0, whereas the source produces an
IEEE infinity or NaN at `dt = 0`; this real-valued embedding is therefore
faithful only when `dt` is nonzero or the pointer is up (so the drag term is
discarded). The finiteness-tracking model below covers `dt = 0`. -/
def pointerVel (ptr : Pointer) (dt : ℝ) : Vec2 :=
  ⟨(ptr.pos.x - ptr.prevPos.x) / dt * (-50),
   (ptr.pos.y - ptr.prevPos.y) / dt * (-50)⟩

/-- `updatePointerAndCamera` from app.ts: exponential damping with base
0.015, constant yaw drift `2 * dt`, drag input while the pointer is down,
then integration with the pitch clamped away from the poles. Returns the new
orbit state together with the pointer state after the prevPos snapshot. -/
def updatePointerAndCamera (cam : OrbitCam) (ptr : Pointer) (dt : ℝ) :
    OrbitCam × Pointer :=
  let pv := pointerVel ptr dt
  let ptr2 : Pointer := ⟨ptr.down, ptr.pos, ptr.pos⟩
  let vax := cam.vax * (0.015 : ℝ) ^ dt
  let vaz := cam.vaz * (0.015 : ℝ) ^ dt
  let vdist := cam.vdist * (0.015 : ℝ) ^ dt
  let vaz := vaz + 2 * dt
  let vax := if ptr.down then vax + pv.y * dt else vax
  let vaz := if ptr.down then vaz + pv.x * dt else vaz
  let ax := clamp (cam.ax + vax * dt) (-(Real.pi / 2) + 0.0001) (Real.pi / 2 - 0.0001)
  let az := cam.az + vaz * dt
  let dist := cam.dist + vdist * dt
  (⟨dist, ax, az, vdist, vax, vaz⟩, ptr2)

/-- `updatePointerAndCamera` of the point-cloud variant (unnamed part 001):
damping base 0.01 and no constant yaw drift; otherwise identical. -/
def updatePointerAndCameraP1 (cam : OrbitCam) (ptr : Pointer) (dt : ℝ) :
    OrbitCam × Pointer :=
  let pv := pointerVel ptr dt
  let ptr2 : Pointer := ⟨ptr.down, ptr.pos, ptr.pos⟩
  let vax := cam.vax * (0.01 : ℝ) ^ dt
  let vaz := cam.vaz * (0.01 : ℝ) ^ dt
  let vdist := cam.vdist * (0.01 : ℝ) ^ dt
  let vax := if ptr.down then vax + pv.y * dt else vax
  let vaz := if ptr.down then vaz + pv.x * dt else vaz
  let ax := clamp (cam.ax + vax * dt) (-(Real.pi / 2) + 0.0001) (Real.pi / 2 - 0.0001)
  let az := cam.az + vaz * dt
  let dist := cam.dist + vdist * dt
  (⟨dist, ax, az, vdist, vax, vaz⟩, ptr2)

/-!
IEEE finiteness model of the pointer-velocity computation. The shader and
controller claims above are settled over exact reals, but the claim about
`dt = 0` concerns float special values: in JavaScript `x / 0` is an infinity
(or NaN for `0 / 0`), both non-finite. `some x` stands for a finite float of
exact value `x`; `none` stands for a non-finite value (an infinity or NaN).
Division by zero yields a non-finite value; multiplying or adding a
non-finite value by any finite one stays non-finite in every case that
arises here (Inf times 0 is NaN, Inf times a nonzero constant is an
infinity, finite plus non-finite is non-finite). Overflow of large finite
values is not modelled; it is irrelevant to the `dt = 0` question.
-/

/-- Float division, tracking finiteness. -/
def fdiv (a b : ℝ) : Option ℝ := if b = 0 then none else some (a / b)

/-- Multiply a tracked value by a finite scalar. -/
def fscale (v : Option ℝ) (c : ℝ) : Option ℝ := v.map fun x => x * c

/-- Add a finite value to a tracked value. -/
def fadd (a : ℝ) (v : Option ℝ) : Option ℝ := v.map fun x => a + x

/-- The x component of `pointerVel`, finiteness-tracked. -/
def pointerVelFX (ptr : Pointer) (dt : ℝ) : Option ℝ :=
  fscale (fdiv (ptr.pos.x - ptr.prevPos.x) dt) (-50)

/-- The y component of `pointerVel`, finiteness-tracked. -/
def pointerVelFY (ptr : Pointer) (dt : ℝ) : Option ℝ :=
  fscale (fdiv (ptr.pos.y - ptr.prevPos.y) dt) (-50)

/-- The pitch velocity after `updatePointerAndCamera`, finiteness-tracked:
damping is exact, and while the pointer is down the term
`pointerVel.y * dt` is added. -/
def vaxAfterF (cam : OrbitCam) (ptr : Pointer) (dt : ℝ) : Option ℝ :=
  if ptr.down then
    fadd (cam.vax * (0.015 : ℝ) ^ dt) (fscale (pointerVelFY ptr dt) dt)
  else
    some (cam.vax * (0.015 : ℝ) ^ dt)

/-- The yaw velocity after `updatePointerAndCamera`, finiteness-tracked. -/
def vazAfterF (cam : OrbitCam) (ptr : Pointer) (dt : ℝ) : Option ℝ :=
  if ptr.down then
    fadd (cam.vaz * (0.015 : ℝ) ^ dt + 2 * dt) (fscale (pointerVelFX ptr dt) dt)
  else
    some (cam.vaz * (0.015 : ℝ) ^ dt + 2 * dt)

/-- The pitch after `updatePointerAndCamera`, finiteness-tracked: the clamp
`Math.max(lo, Math.min(hi, x))` is applied to `cam.ax + vax * dt`. Both
`Math.min` and `Math.max` return NaN on a NaN argument, so the clamp of a
non-finite value is non-finite. -/
def axAfterF (cam : OrbitCam) (ptr : Pointer) (dt : ℝ) : Option ℝ :=
  Option.map
    (fun x => clamp x (-(Real.pi / 2) + 0.0001) (Real.pi / 2 - 0.0001))
    (fadd cam.ax (fscale (vaxAfterF cam ptr dt) dt))

/-!
Concrete instances used by counterexamples and witnesses.
-/

/-- An orbit state at rest: all three velocities zero. -/
def restCam : OrbitCam := ⟨5, 0, 0, 0, 0, 0⟩

/-- A released pointer with no pending drag delta. -/
def ptrUp : Pointer := ⟨false, ⟨0, 0⟩, ⟨0, 0⟩⟩

/-- A pressed pointer that moved since the previous frame. -/
def ptrDrag : Pointer := ⟨true, ⟨0.5, 0.5⟩, ⟨0, 0⟩⟩

/-- A blob of radius 1 centered at the world origin. -/
def blobO : Blob := ⟨v3zero, 1, ⟨1, 0, 0, 1⟩⟩

/-- Blob at distance 0 from the origin evaluation point. -/
def bA : Blob := ⟨⟨1, 0, 0⟩, 1, v4zero⟩

/-- Blob at distance 0.4 from the origin evaluation point. -/
def bB : Blob := ⟨⟨2, 0, 0⟩, 1.6, v4zero⟩

/-- Blob at distance 0.8 from the origin evaluation point. -/
def bC : Blob := ⟨⟨3, 0, 0⟩, 2.2, v4zero⟩

/-!
Helper lemmas.
-/

/-- The clamp of the specification equals the code expression
`1 - min q 1` whenever `q` is nonnegative. -/
lemma clamp_one_sub (q : ℝ) (hq : 0 ≤ q) : clamp (1 - q) 0 1 = 1 - min q 1 := by
  unfold clamp
  rcases le_total q 1 with h | h
  · rw [min_eq_left h, min_eq_right (by linarith), max_eq_right (by linarith)]
  · rw [min_eq_right h, min_eq_right (by linarith : (1:ℝ) - q ≤ 1),
      max_eq_left (by linarith)]
    norm_num

/-- Flipping the interpolation parameter swaps the interpolation ends. -/
lemma mix4_one_sub (c1 c2 : Vec4) (t : ℝ) :
    mix4 c1 c2 (1 - t) = mix4 c2 c1 t := by
  unfold mix4
  ext <;> dsimp <;> ring

/-- The distance field of one fold step. -/
lemma sdfStep_dist (p : Vec3) (r : SDFValue) (blob : Blob) :
    (sdfStep p r blob).dist = (smin r.dist (sdBlob p blob) 0.2).min := rfl

/-- The accumulated distance of the fold depends only on the running
distance, through the smooth minimum. -/
lemma foldl_dist (p : Vec3) (blobs : List Blob) :
    ∀ r : SDFValue,
      (List.foldl (sdfStep p) r blobs).dist
        = List.foldl (fun d blob => (smin d (sdBlob p blob) 0.2).min) r.dist blobs := by
  induction blobs with
  | nil => intro r; rfl
  | cons b bs ih =>
    intro r
    simp only [List.foldl]
    rw [ih]
    rfl

/-- When the two distances are at least `4 k` apart and the second is the
smaller, the smooth minimum degenerates to the plain minimum with full blend. -/
lemma smin_far_right (a b k : ℝ) (hk : 0 < k) (hba : b ≤ a)
    (hfar : 4 * k ≤ a - b) : smin a b k = ⟨b, 1⟩ := by
  have h4k : (0:ℝ) < 4 * k := by linarith
  have habs : |a - b| = a - b := abs_of_nonneg (by linarith)
  have hmin : min (|a - b| / (4 * k)) 1 = 1 :=
    min_eq_right (by rw [habs, le_div_iff₀ h4k]; linarith)
  simp only [smin, hmin]
  rw [if_neg (not_lt.mpr hba)]
  ext <;> norm_num

/-- When the two distances are at least `4 k` apart and the first is the
smaller, the smooth minimum degenerates to the plain minimum with zero blend. -/
lemma smin_far_left (a b k : ℝ) (hk : 0 < k) (hab : a < b)
    (hfar : 4 * k ≤ b - a) : smin a b k = ⟨a, 0⟩ := by
  have h4k : (0:ℝ) < 4 * k := by linarith
  have habs : |a - b| = b - a := by
    rw [abs_of_nonpos (by linarith)]; ring
  have hmin : min (|a - b| / (4 * k)) 1 = 1 :=
    min_eq_right (by rw [habs, le_div_iff₀ h4k]; linarith)
  simp only [smin, hmin]
  rw [if_pos hab]
  ext <;> norm_num

/-- Concrete evaluation: `smin 0 0.4 0.2`. -/
lemma smin_eval1 : smin 0 0.4 0.2 = ⟨-0.05, 0.125⟩ := by
  have habs : |(0:ℝ) - 0.4| = 0.4 := by
    rw [abs_of_nonpos (by norm_num)]; norm_num
  have hmin : min (|(0:ℝ) - 0.4| / (4 * 0.2)) 1 = 0.5 := by
    rw [habs, show (0.4:ℝ) / (4 * 0.2) = 0.5 by norm_num,
      min_eq_left (by norm_num : (0.5:ℝ) ≤ 1)]
  simp only [smin, hmin]
  rw [if_pos (by norm_num : (0:ℝ) < 0.4)]
  ext <;> norm_num

/-- Concrete evaluation: `smin 0.8 0.4 0.2`. -/
lemma smin_eval2 : smin 0.8 0.4 0.2 = ⟨0.35, 0.875⟩ := by
  have habs : |(0.8:ℝ) - 0.4| = 0.4 := by
    rw [abs_of_nonneg (by norm_num)]; norm_num
  have hmin : min (|(0.8:ℝ) - 0.4| / (4 * 0.2)) 1 = 0.5 := by
    rw [habs, show (0.4:ℝ) / (4 * 0.2) = 0.5 by norm_num,
      min_eq_left (by norm_num : (0.5:ℝ) ≤ 1)]
  simp only [smin, hmin]
  rw [if_neg (by norm_num : ¬ (0.8:ℝ) < 0.4)]
  ext <;> norm_num

/-- Concrete evaluation: `smin 0.35 0 0.2`. -/
lemma smin_eval3 : smin 0.35 0 0.2 = ⟨-0.06328125, 0.841796875⟩ := by
  have habs : |(0.35:ℝ) - 0| = 0.35 := by
    rw [abs_of_nonneg (by norm_num)]; norm_num
  have hmin : min (|(0.35:ℝ) - 0| / (4 * 0.2)) 1 = 0.4375 := by
    rw [habs, show (0.35:ℝ) / (4 * 0.2) = 0.4375 by norm_num,
      min_eq_left (by norm_num : (0.4375:ℝ) ≤ 1)]
  simp only [smin, hmin]
  rw [if_neg (by norm_num : ¬ (0.35:ℝ) < 0)]
  ext <;> norm_num

/-- Distance from the origin to `bA`. -/
lemma sdBlob_bA : sdBlob v3zero bA = 0 := by
  unfold sdBlob length3 v3sub v3zero bA
  norm_num [Real.sqrt_one]

/-- Distance from the origin to `bB`. -/
lemma sdBlob_bB : sdBlob v3zero bB = 0.4 := by
  have h4 : Real.sqrt 4 = 2 := by
    rw [show (4:ℝ) = 2 ^ 2 by norm_num, Real.sqrt_sq (by norm_num : (0:ℝ) ≤ 2)]
  unfold sdBlob length3 v3sub v3zero bB
  norm_num [h4]

/-- Distance from the origin to `bC`. -/
lemma sdBlob_bC : sdBlob v3zero bC = 0.8 := by
  have h9 : Real.sqrt 9 = 3 := by
    rw [show (9:ℝ) = 3 ^ 2 by norm_num, Real.sqrt_sq (by norm_num : (0:ℝ) ≤ 3)]
  unfold sdBlob length3 v3sub v3zero bC
  norm_num [h9]

/-- Distance from the origin to `blobO`. -/
lemma sdBlob_blobO : sdBlob v3zero blobO = -1 := by
  norm_num [sdBlob, length3, v3sub, v3zero, blobO, Real.sqrt_zero]

/-- The blended distance over the order `[bA, bB, bC]`. -/
lemma sdf_ABC : (sdf [bA, bB, bC] v3zero).dist = -0.05 := by
  rw [sdf, foldl_dist]
  simp only [List.foldl]
  rw [sdBlob_bA, sdBlob_bB, sdBlob_bC]
  rw [smin_far_right 999999 0 0.2 (by norm_num) (by norm_num) (by norm_num)]
  rw [show (SmoothMin.mk 0 1).min = 0 from rfl]
  rw [smin_eval1]
  rw [show (SmoothMin.mk (-0.05) 0.125).min = -0.05 from rfl]
  rw [smin_far_left (-0.05) 0.8 0.2 (by norm_num) (by norm_num) (by norm_num)]

/-- The blended distance over the reversed order `[bC, bB, bA]`. -/
lemma sdf_CBA : (sdf [bC, bB, bA] v3zero).dist = -0.06328125 := by
  rw [sdf, foldl_dist]
  simp only [List.foldl]
  rw [sdBlob_bA, sdBlob_bB, sdBlob_bC]
  rw [smin_far_right 999999 0.8 0.2 (by norm_num) (by norm_num) (by norm_num)]
  rw [show (SmoothMin.mk 0.8 1).min = 0.8 from rfl]
  rw [smin_eval2]
  rw [show (SmoothMin.mk 0.35 0.875).min = 0.35 from rfl]
  rw [smin_eval3]

/-- The smooth minimum never exceeds the plain minimum. -/
lemma smin_min_le (a b k : ℝ) (hk : 0 < k) : (smin a b k).min ≤ min a b := by
  have hs : 0 ≤ (1 - min (|a - b| / (4 * k)) 1) * (1 - min (|a - b| / (4 * k)) 1) * k :=
    mul_nonneg (mul_self_nonneg _) hk.le
  unfold smin
  by_cases h : a < b
  · rw [if_pos h]
    dsimp only
    rw [min_eq_left h.le]
    linarith
  · rw [if_neg h]
    dsimp only
    rw [min_eq_right (not_lt.mp h)]
    linarith

/-- The fold of the SDF evaluator only decreases the running distance, and
ends below every per-blob distance. -/
lemma sdf_foldl_dist_le (p : Vec3) :
    ∀ (blobs : List Blob) (r : SDFValue),
      (List.foldl (sdfStep p) r blobs).dist ≤ r.dist
      ∧ ∀ blob ∈ blobs, (List.foldl (sdfStep p) r blobs).dist ≤ sdBlob p blob := by
  intro blobs
  induction blobs with
  | nil =>
    intro r
    exact ⟨le_refl _, fun blob h => absurd h (List.not_mem_nil blob)⟩
  | cons b bs ih =>
    intro r
    have hstep : (sdfStep p r b).dist ≤ min r.dist (sdBlob p b) := by
      rw [sdfStep_dist]
      exact smin_min_le _ _ _ (by norm_num)
    have h1 := (ih (sdfStep p r b)).1
    have h2 := (ih (sdfStep p r b)).2
    simp only [List.foldl]
    constructor
    · exact le_trans h1 (le_trans hstep (min_le_left _ _))
    · intro blob hmem
      rcases List.mem_cons.mp hmem with heq | hmem2
      · subst heq
        exact le_trans h1 (le_trans hstep (min_le_right _ _))
      · exact h2 blob hmem2

/-!
Claim theorems.
-/

/-- C1: for a positive blend radius `k` the smooth minimum computes
`h = clamp(1 - |a - b| / (4 k), 0, 1)`, `w = h ^ 2`, combined distance
`min a b - w * k`, and a blend factor `w / 2` oriented toward whichever of
the two distances is smaller; the SDF fold step uses it as
`color = mix(color, blob.color, blendFactor)`. -/
theorem smin_spec (a b k : ℝ) (hk : 0 < k) :
    (smin a b k).min = min a b - clamp (1 - |a - b| / (4 * k)) 0 1 ^ 2 * k
    ∧ (smin a b k).blend =
        (if a < b then clamp (1 - |a - b| / (4 * k)) 0 1 ^ 2 / 2
         else 1 - clamp (1 - |a - b| / (4 * k)) 0 1 ^ 2 / 2)
    ∧ (∀ c1 c2 : Vec4,
        mix4 c1 c2 (smin a b k).blend =
          if a < b then mix4 c1 c2 (clamp (1 - |a - b| / (4 * k)) 0 1 ^ 2 / 2)
          else mix4 c2 c1 (clamp (1 - |a - b| / (4 * k)) 0 1 ^ 2 / 2))
    ∧ (∀ (p : Vec3) (result : SDFValue) (blob : Blob),
        sdfStep p result blob =
          ⟨(smin result.dist (sdBlob p blob) 0.2).min, result.normal,
           mix4 result.color blob.color (smin result.dist (sdBlob p blob) 0.2).blend⟩) := by
  have h4k : (0:ℝ) < 4 * k := by linarith
  have hq : 0 ≤ |a - b| / (4 * k) := div_nonneg (abs_nonneg _) h4k.le
  have hc : clamp (1 - |a - b| / (4 * k)) 0 1 = 1 - min (|a - b| / (4 * k)) 1 :=
    clamp_one_sub _ hq
  have hblend : (smin a b k).blend =
      (if a < b then clamp (1 - |a - b| / (4 * k)) 0 1 ^ 2 / 2
       else 1 - clamp (1 - |a - b| / (4 * k)) 0 1 ^ 2 / 2) := by
    rw [hc]
    unfold smin
    by_cases h : a < b
    · rw [if_pos h, if_pos h]
      dsimp only
      ring
    · rw [if_neg h, if_neg h]
      dsimp only
      ring
  refine ⟨?_, hblend, ?_, ?_⟩
  · rw [hc]
    unfold smin
    by_cases h : a < b
    · rw [if_pos h]
      dsimp only
      rw [min_eq_left h.le]
      ring
    · rw [if_neg h]
      dsimp only
      rw [min_eq_right (not_lt.mp h)]
      ring
  · intro c1 c2
    rw [hblend]
    by_cases h : a < b
    · rw [if_pos h, if_pos h]
    · rw [if_neg h, if_neg h, mix4_one_sub]
  · intro p result blob
    rfl

/-- Witness for C1 at `a = 0`, `b = 1`, `k = 1`. -/
theorem smin_spec_witness :
    (0:ℝ) < 1
    ∧ (smin 0 1 1).min = min 0 1 - clamp (1 - |0 - 1| / (4 * 1)) 0 1 ^ 2 * 1 :=
  ⟨one_pos, (smin_spec 0 1 1 one_pos).1⟩

/-- C4 counterexample: reversing a three-blob collection changes the blended
distance from -0.05 to -0.06328125 in exact real arithmetic, a difference
far beyond floating-point rounding, so the fold is not order-independent. -/
theorem sdf_not_perm_invariant :
    List.Perm [bC, bB, bA] [bA, bB, bC]
    ∧ (sdf [bC, bB, bA] v3zero).dist ≠ (sdf [bA, bB, bC] v3zero).dist := by
  constructor
  · simpa using (List.reverse_perm [bA, bB, bC])
  · rw [sdf_CBA, sdf_ABC]
    norm_num

/-- C4 amended: the pairwise smooth-minimum blend is commutative: swapping
the two distances preserves the combined distance, complements the blend
factor, and yields the same mixed color once the color arguments are swapped
accordingly. Full permutation invariance of the fold fails. -/
theorem smin_comm (a b k : ℝ) :
    (smin a b k).min = (smin b a k).min
    ∧ (smin b a k).blend = 1 - (smin a b k).blend
    ∧ ∀ c1 c2 : Vec4,
        mix4 c1 c2 (smin a b k).blend = mix4 c2 c1 (smin b a k).blend := by
  have habs : |b - a| = |a - b| := abs_sub_comm b a
  have hmin : (smin a b k).min = (smin b a k).min := by
    unfold smin
    rcases lt_trichotomy a b with h | h | h
    · rw [if_pos h, if_neg (asymm h)]
      dsimp only
      rw [habs]
    · subst h
      rfl
    · rw [if_neg (asymm h), if_pos h]
      dsimp only
      rw [habs]
  have hblend : (smin b a k).blend = 1 - (smin a b k).blend := by
    unfold smin
    rcases lt_trichotomy a b with h | h | h
    · rw [if_neg (asymm h), if_pos h]
      dsimp only
      rw [habs]
    · subst h
      rw [if_neg (lt_irrefl a)]
      dsimp only
      rw [sub_self, abs_zero, zero_div, min_eq_left zero_le_one]
      norm_num
    · rw [if_pos h, if_neg (asymm h)]
      dsimp only
      rw [habs]
      ring
  refine ⟨hmin, hblend, fun c1 c2 => ?_⟩
  rw [hblend, mix4_one_sub]

/-- C9: the smooth minimum is bounded above by the plain minimum, and hence
the blended SDF is bounded above by every per-blob signed distance. -/
theorem sdf_lower_bound :
    (∀ a b k : ℝ, 0 < k → (smin a b k).min ≤ min a b)
    ∧ ∀ (blobs : List Blob) (p : Vec3) (blob : Blob),
        blob ∈ blobs → (sdf blobs p).dist ≤ sdBlob p blob := by
  refine ⟨fun a b k hk => smin_min_le a b k hk, fun blobs p blob hmem => ?_⟩
  exact (sdf_foldl_dist_le p blobs _).2 blob hmem

/-- Witness for C9 at concrete inputs. -/
theorem sdf_lower_bound_witness :
    (smin 0 1 1).min ≤ min 0 1
    ∧ (sdf [bA] v3zero).dist ≤ sdBlob v3zero bA :=
  ⟨sdf_lower_bound.1 0 1 1 one_pos,
   sdf_lower_bound.2 [bA] v3zero bA (List.mem_singleton_self bA)⟩

/-- C6: on an empty blob collection the SDF evaluator returns without fault:
distance is the sentinel 999999 and the color is the default (zero) color
produced by the robust read of `blobs[0]`. -/
theorem sdf_empty (p : Vec3) : sdf [] p = ⟨999999, v3zero, v4zero⟩ := rfl

/-- Each tracer iteration performs exactly one `sdf` evaluation, so the
count is bounded by the fuel. -/
lemma fsLoop_evals_le (blobs : List Blob) (origin dir : Vec3) :
    ∀ (fuel : ℕ) (t : ℝ) (r : SDFValue),
      (fsLoop blobs origin dir fuel t r).2.2 ≤ fuel := by
  intro fuel
  induction fuel with
  | zero =>
    intro t r
    exact Nat.le_refl 0
  | succ fuel ih =>
    intro t r
    simp only [fsLoop]
    by_cases h1 : (sdf blobs (v3add origin (v3smul t dir))).dist < epsilon
    · rw [if_pos h1]
      exact Nat.succ_le_succ (Nat.zero_le fuel)
    · rw [if_neg h1]
      by_cases h2 : maxDist < t + (sdf blobs (v3add origin (v3smul t dir))).dist
      · rw [if_pos h2]
        exact Nat.succ_le_succ (Nat.zero_le fuel)
      · rw [if_neg h2]
        exact Nat.succ_le_succ (ih _ _)

/-- If the SDF stays at or above epsilon at every visited point, the final
result of the loop also stays at or above epsilon (or the loop never ran). -/
lemma fsLoop_miss (blobs : List Blob) (origin dir : Vec3)
    (hyp : ∀ s : ℝ, 0 ≤ s → s ≤ maxDist →
      epsilon ≤ (sdf blobs (v3add origin (v3smul s dir))).dist) :
    ∀ (fuel : ℕ) (t : ℝ) (r : SDFValue), 0 ≤ t → t ≤ maxDist →
      epsilon ≤ (fsLoop blobs origin dir fuel t r).1.dist
      ∨ (fuel = 0 ∧ fsLoop blobs origin dir fuel t r = (r, t, 0)) := by
  intro fuel
  induction fuel with
  | zero =>
    intro t r ht htm
    exact Or.inr ⟨rfl, rfl⟩
  | succ fuel ih =>
    intro t r ht htm
    have hres : epsilon ≤ (sdf blobs (v3add origin (v3smul t dir))).dist :=
      hyp t ht htm
    have heps : (0:ℝ) < epsilon := by norm_num [epsilon]
    left
    simp only [fsLoop]
    rw [if_neg (not_lt.mpr hres)]
    by_cases h2 : maxDist < t + (sdf blobs (v3add origin (v3smul t dir))).dist
    · rw [if_pos h2]
      exact hres
    · rw [if_neg h2]
      rcases ih (t + (sdf blobs (v3add origin (v3smul t dir))).dist)
          (sdf blobs (v3add origin (v3smul t dir)))
          (by linarith) (not_lt.mp h2) with h | ⟨hf, heq⟩
      · exact h
      · rw [heq]
        exact hres

/-- C2: the tracer performs at most 128 SDF evaluations on every invocation,
and when the SDF along the ray never drops below epsilon within the far
plane, it terminates with no hit. -/
theorem trace_bounded_work (blobs : List Blob) (origin dir : Vec3) :
    (trace blobs origin dir).evals ≤ maxIterations
    ∧ ((∀ s : ℝ, 0 ≤ s → s ≤ maxDist →
          epsilon ≤ (sdf blobs (v3add origin (v3smul s dir))).dist) →
        ¬ (trace blobs origin dir).hit) := by
  constructor
  · exact fsLoop_evals_le blobs origin dir maxIterations 0 _
  · intro hyp
    rcases fsLoop_miss blobs origin dir hyp maxIterations 0 ⟨0, v3zero, v4zero⟩
        le_rfl (by norm_num [maxDist]) with h | ⟨hf, _⟩
    · exact not_lt.mpr h
    · exact absurd hf (by norm_num [maxIterations])

/-- Witness for C2: an empty scene, where the SDF is the sentinel
everywhere. -/
theorem trace_bounded_work_witness :
    (trace [] v3zero ⟨0, 0, 1⟩).evals ≤ maxIterations
    ∧ ¬ (trace [] v3zero ⟨0, 0, 1⟩).hit :=
  ⟨(trace_bounded_work [] v3zero ⟨0, 0, 1⟩).1,
   (trace_bounded_work [] v3zero ⟨0, 0, 1⟩).2
     (fun s _ _ => by norm_num [sdf, List.foldl, initColor, epsilon])⟩

/-- One unfolding step of the tracer loop. -/
lemma fsLoop_succ (blobs : List Blob) (origin dir : Vec3) (fuel : ℕ) (t : ℝ)
    (r : SDFValue) :
    fsLoop blobs origin dir (fuel + 1) t r =
      (let result := sdf blobs (v3add origin (v3smul t dir))
       if result.dist < epsilon then (result, t, 1)
       else
         let t2 := t + result.dist
         if maxDist < t2 then (result, t2, 1)
         else
           let rr := fsLoop blobs origin dir fuel t2 result
           (rr.1, rr.2.1, rr.2.2 + 1)) := rfl

/-- C10: when the SDF is already below epsilon at the ray origin, the tracer
hits immediately: zero distance traveled, exactly one SDF evaluation, and
the blended color at the origin. -/
theorem trace_immediate_hit (blobs : List Blob) (origin dir : Vec3)
    (h : (sdf blobs origin).dist < epsilon) :
    (trace blobs origin dir).hit
    ∧ (trace blobs origin dir).distanceTraveled = 0
    ∧ (trace blobs origin dir).evals = 1
    ∧ (trace blobs origin dir).color = (sdf blobs origin).color := by
  have hpt : v3add origin (v3smul 0 dir) = origin := by
    unfold v3add v3smul
    ext <;> dsimp <;> ring
  have hloop : fsLoop blobs origin dir maxIterations 0 ⟨0, v3zero, v4zero⟩
      = (sdf blobs origin, 0, 1) := by
    rw [show maxIterations = 127 + 1 from rfl, fsLoop_succ, hpt]
    dsimp only
    rw [if_pos h]
  refine ⟨?_, ?_, ?_, ?_⟩
  · show (fsLoop blobs origin dir maxIterations 0 ⟨0, v3zero, v4zero⟩).1.dist < epsilon
    rw [hloop]
    exact h
  · show (fsLoop blobs origin dir maxIterations 0 ⟨0, v3zero, v4zero⟩).2.1 = 0
    rw [hloop]
  · show (fsLoop blobs origin dir maxIterations 0 ⟨0, v3zero, v4zero⟩).2.2 = 1
    rw [hloop]
  · show (fsLoop blobs origin dir maxIterations 0 ⟨0, v3zero, v4zero⟩).1.color
        = (sdf blobs origin).color
    rw [hloop]

/-- The blended distance at the origin with the single blob `blobO`. -/
lemma sdf_blobO_dist : (sdf [blobO] v3zero).dist = -1 := by
  rw [sdf, foldl_dist]
  simp only [List.foldl]
  rw [sdBlob_blobO]
  rw [smin_far_right 999999 (-1) 0.2 (by norm_num) (by norm_num) (by norm_num)]

/-- Witness for C10: a camera inside a blob of radius 1 at the origin. -/
theorem trace_immediate_hit_witness :
    (sdf [blobO] v3zero).dist < epsilon
    ∧ ((trace [blobO] v3zero ⟨0, 0, 1⟩).hit
       ∧ (trace [blobO] v3zero ⟨0, 0, 1⟩).distanceTraveled = 0
       ∧ (trace [blobO] v3zero ⟨0, 0, 1⟩).evals = 1
       ∧ (trace [blobO] v3zero ⟨0, 0, 1⟩).color = (sdf [blobO] v3zero).color) :=
  ⟨by rw [sdf_blobO_dist]; norm_num [epsilon],
   trace_immediate_hit [blobO] v3zero ⟨0, 0, 1⟩
     (by rw [sdf_blobO_dist]; norm_num [epsilon])⟩

/-!
Orbit camera claims.
-/

/-- A clamped value never exceeds the upper bound when the bounds are
ordered. -/
lemma clamp_le_hi (x a b : ℝ) (hab : a ≤ b) : clamp x a b ≤ b :=
  max_le hab (min_le_left _ _)

/-- A clamped value never drops below the lower bound. -/
lemma lo_le_clamp (x a b : ℝ) : a ≤ clamp x a b := le_max_left _ _

/-- The updated pitch of the app.ts controller is a clamp to the pole-avoiding
interval. -/
lemma update_ax_clamp (cam : OrbitCam) (ptr : Pointer) (dt : ℝ) :
    ∃ x, ((updatePointerAndCamera cam ptr dt).1).ax
      = clamp x (-(Real.pi / 2) + 0.0001) (Real.pi / 2 - 0.0001) :=
  ⟨_, rfl⟩

/-- The updated pitch of the part 001 controller is a clamp to the same
interval. -/
lemma updateP1_ax_clamp (cam : OrbitCam) (ptr : Pointer) (dt : ℝ) :
    ∃ x, ((updatePointerAndCameraP1 cam ptr dt).1).ax
      = clamp x (-(Real.pi / 2) + 0.0001) (Real.pi / 2 - 0.0001) :=
  ⟨_, rfl⟩

/-- At the failing input (pointer down, nonzero delta, `dt = 0`), the
pitch velocity becomes non-finite: the division by zero propagates. -/
lemma vaxAfterF_ptrDrag_none : vaxAfterF initialOrbitCam ptrDrag 0 = none := by
  show fadd (initialOrbitCam.vax * (0.015:ℝ) ^ (0:ℝ))
      (fscale (pointerVelFY ptrDrag 0) 0) = none
  rw [show pointerVelFY ptrDrag 0 = fscale (fdiv ((0.5:ℝ) - 0) 0) (-50) from rfl]
  rw [show fdiv ((0.5:ℝ) - 0) 0 = none from by unfold fdiv; rw [if_pos rfl]]
  rfl

/-- At the failing input, the yaw velocity becomes non-finite as well. -/
lemma vazAfterF_ptrDrag_none : vazAfterF initialOrbitCam ptrDrag 0 = none := by
  show fadd (initialOrbitCam.vaz * (0.015:ℝ) ^ (0:ℝ) + 2 * 0)
      (fscale (pointerVelFX ptrDrag 0) 0) = none
  rw [show pointerVelFX ptrDrag 0 = fscale (fdiv ((0.5:ℝ) - 0) 0) (-50) from rfl]
  rw [show fdiv ((0.5:ℝ) - 0) 0 = none from by unfold fdiv; rw [if_pos rfl]]
  rfl

/-- Whenever the pointer is up or `dt` is nonzero, every value in the
pointer-velocity chain is finite and the finiteness-tracked pitch agrees
with the real-valued embedding. -/
lemma axAfterF_eq_of_guard (cam : OrbitCam) (ptr : Pointer) (dt : ℝ)
    (hguard : ptr.down = false ∨ dt ≠ 0) :
    axAfterF cam ptr dt = some (((updatePointerAndCamera cam ptr dt).1).ax) := by
  rcases hguard with hdown | hdt
  · simp [axAfterF, vaxAfterF, fscale, fadd, hdown, updatePointerAndCamera]
  · by_cases hdown : ptr.down
    · simp [axAfterF, vaxAfterF, pointerVelFY, fscale, fdiv, fadd, hdt, hdown,
        updatePointerAndCamera, pointerVel]
    · simp [axAfterF, vaxAfterF, fscale, fadd, hdown, updatePointerAndCamera]

/-- C3 counterexample: the claim quantifies over arbitrary pointer inputs
and nonnegative `dt`, but at `dt = 0` with the pointer down and a nonzero
drag delta the unguarded division `(pos - prevPos) / dt` makes the pitch
velocity non-finite, and the clamp of a non-finite value is non-finite: the
advanced pitch is NaN, which lies in no interval. -/
theorem pitch_nan_at_dt_zero :
    ptrDrag.down = true
    ∧ axAfterF initialOrbitCam ptrDrag 0 = none
    ∧ ¬ ∃ x, axAfterF initialOrbitCam ptrDrag 0 = some x
        ∧ -(Real.pi / 2) + 0.0001 ≤ x ∧ x ≤ Real.pi / 2 - 0.0001 := by
  have hnone : axAfterF initialOrbitCam ptrDrag 0 = none := by
    unfold axAfterF
    rw [vaxAfterF_ptrDrag_none]
    rfl
  refine ⟨rfl, hnone, ?_⟩
  rintro ⟨x, hx, -⟩
  rw [hnone] at hx
  exact Option.noConfusion hx

/-- C3 amended: whenever the pointer is up or the elapsed time is nonzero,
the pointer-velocity chain is finite, the finiteness-tracked pitch equals
the real-valued clamp, and after every advance of either controller variant
the pitch lies in the closed interval from `-pi/2 + 0.0001` to
`pi/2 - 0.0001`, hence strictly inside `(-pi/2, pi/2)`; at `dt = 0` while
dragging the pitch becomes non-finite instead (see the counterexample). -/
theorem pitch_clamped_amended (cam : OrbitCam) (ptr : Pointer) (dt : ℝ)
    (hguard : ptr.down = false ∨ dt ≠ 0) :
    axAfterF cam ptr dt = some (((updatePointerAndCamera cam ptr dt).1).ax)
    ∧ (-(Real.pi / 2) + 0.0001 ≤ ((updatePointerAndCamera cam ptr dt).1).ax
      ∧ ((updatePointerAndCamera cam ptr dt).1).ax ≤ Real.pi / 2 - 0.0001)
    ∧ (-(Real.pi / 2) < ((updatePointerAndCamera cam ptr dt).1).ax
      ∧ ((updatePointerAndCamera cam ptr dt).1).ax < Real.pi / 2)
    ∧ (-(Real.pi / 2) + 0.0001 ≤ ((updatePointerAndCameraP1 cam ptr dt).1).ax
      ∧ ((updatePointerAndCameraP1 cam ptr dt).1).ax ≤ Real.pi / 2 - 0.0001) := by
  have hpi := Real.pi_gt_three
  have hab : -(Real.pi / 2) + 0.0001 ≤ Real.pi / 2 - 0.0001 := by linarith
  obtain ⟨x, hx⟩ := update_ax_clamp cam ptr dt
  obtain ⟨y, hy⟩ := updateP1_ax_clamp cam ptr dt
  refine ⟨axAfterF_eq_of_guard cam ptr dt hguard, ?_⟩
  rw [hx, hy]
  refine ⟨⟨lo_le_clamp _ _ _, clamp_le_hi _ _ _ hab⟩, ⟨?_, ?_⟩,
    lo_le_clamp _ _ _, clamp_le_hi _ _ _ hab⟩
  · have := lo_le_clamp x (-(Real.pi / 2) + 0.0001) (Real.pi / 2 - 0.0001)
    linarith
  · have := clamp_le_hi x (-(Real.pi / 2) + 0.0001) (Real.pi / 2 - 0.0001) hab
    linarith

/-- Witness for the amended C3 with the pointer up at `dt = 1`. -/
theorem pitch_clamped_amended_witness :
    axAfterF restCam ptrUp 1 = some (((updatePointerAndCamera restCam ptrUp 1).1).ax)
    ∧ (-(Real.pi / 2) + 0.0001 ≤ ((updatePointerAndCamera restCam ptrUp 1).1).ax
      ∧ ((updatePointerAndCamera restCam ptrUp 1).1).ax ≤ Real.pi / 2 - 0.0001) :=
  ⟨(pitch_clamped_amended restCam ptrUp 1 (Or.inl rfl)).1,
   (pitch_clamped_amended restCam ptrUp 1 (Or.inl rfl)).2.1⟩

/-- C5 counterexample: from rest with the pointer up, one advance of the
app.ts controller raises the yaw velocity magnitude from 0 to 2 through the
constant drift term, so velocity magnitude is not strictly decreasing. -/
theorem damping_counterexample :
    restCam.vaz = 0
    ∧ ptrUp.down = false
    ∧ ((updatePointerAndCamera restCam ptrUp 1).1).vaz = 2
    ∧ ¬ |((updatePointerAndCamera restCam ptrUp 1).1).vaz| < |restCam.vaz| := by
  have hvaz : ((updatePointerAndCamera restCam ptrUp 1).1).vaz = 2 := by
    simp [updatePointerAndCamera, restCam, ptrUp]
  refine ⟨rfl, rfl, hvaz, ?_⟩
  rw [hvaz, show restCam.vaz = 0 from rfl]
  norm_num

/-- C5 amended: damping multiplies each velocity by `0.015 ^ dt`, which
composes additively over elapsed time (frame-rate independence); with the
pointer up, pitch and distance velocities are exactly damped and strictly
shrink in magnitude for positive `dt` when nonzero, converging to zero as
cumulative time grows, while the yaw velocity additionally receives the
constant drift `2 * dt`. -/
theorem damping_amended :
    (∀ v dt1 dt2 : ℝ,
      v * (0.015:ℝ) ^ dt1 * (0.015:ℝ) ^ dt2 = v * (0.015:ℝ) ^ (dt1 + dt2))
    ∧ (∀ (cam : OrbitCam) (ptr : Pointer) (dt : ℝ), ptr.down = false →
        ((updatePointerAndCamera cam ptr dt).1).vax = cam.vax * (0.015:ℝ) ^ dt
        ∧ ((updatePointerAndCamera cam ptr dt).1).vdist = cam.vdist * (0.015:ℝ) ^ dt
        ∧ ((updatePointerAndCamera cam ptr dt).1).vaz
            = cam.vaz * (0.015:ℝ) ^ dt + 2 * dt)
    ∧ (∀ v dt : ℝ, 0 < dt → v ≠ 0 → |v * (0.015:ℝ) ^ dt| < |v|)
    ∧ (∀ v : ℝ, Filter.Tendsto (fun T : ℝ => v * (0.015:ℝ) ^ T)
        Filter.atTop (nhds 0)) := by
  refine ⟨?_, ?_, ?_, ?_⟩
  · intro v dt1 dt2
    rw [mul_assoc, ← Real.rpow_add (by norm_num : (0:ℝ) < 0.015)]
  · intro cam ptr dt hdown
    refine ⟨?_, ?_, ?_⟩ <;> simp [updatePointerAndCamera, hdown]
  · intro v dt hdt hv
    have hq : (0:ℝ) < (0.015:ℝ) ^ dt := Real.rpow_pos_of_pos (by norm_num) dt
    have hq1 : (0.015:ℝ) ^ dt < 1 :=
      Real.rpow_lt_one (by norm_num) (by norm_num) hdt
    rw [abs_mul, abs_of_pos hq]
    have hva : 0 < |v| := abs_pos.mpr hv
    nlinarith
  · intro v
    have h := tendsto_rpow_atTop_of_base_lt_one 0.015 (by norm_num) (by norm_num)
    simpa using h.const_mul v

/-- Witness for the amended C5 at concrete inputs. -/
theorem damping_amended_witness :
    (((updatePointerAndCamera restCam ptrUp 1).1).vax
        = restCam.vax * (0.015:ℝ) ^ (1:ℝ))
    ∧ |(1:ℝ) * (0.015:ℝ) ^ (1:ℝ)| < |(1:ℝ)| :=
  ⟨(damping_amended.2.1 restCam ptrUp 1 rfl).1,
   damping_amended.2.2.1 1 1 one_pos one_ne_zero⟩

/-- C8 counterexample: from rest with the pointer up, one advance of the
app.ts controller moves the yaw from 0 to 2, because the drift term feeds
the yaw velocity even without input: the camera does not stay at rest. -/
theorem rest_not_preserved :
    restCam.vax = 0 ∧ restCam.vaz = 0 ∧ restCam.vdist = 0
    ∧ ptrUp.down = false
    ∧ ((updatePointerAndCamera restCam ptrUp 1).1).az = 2
    ∧ ((updatePointerAndCamera restCam ptrUp 1).1).az ≠ restCam.az := by
  have haz : ((updatePointerAndCamera restCam ptrUp 1).1).az = 2 := by
    simp [updatePointerAndCamera, restCam, ptrUp]
  refine ⟨rfl, rfl, rfl, rfl, haz, ?_⟩
  rw [haz, show restCam.az = 0 from rfl]
  norm_num

/-- C8 amended: with the pointer up and all velocities zero, the app.ts
controller leaves pitch (when already inside the clamp interval) and
distance unchanged, but the yaw advances by exactly `2 * dt ^ 2` through the
drift; the part 001 variant, which has no drift, leaves pitch, yaw and
distance all unchanged. -/
theorem rest_amended (cam : OrbitCam) (ptr : Pointer) (dt : ℝ)
    (hdown : ptr.down = false) (hvax : cam.vax = 0) (hvaz : cam.vaz = 0)
    (hvdist : cam.vdist = 0)
    (hlo : -(Real.pi / 2) + 0.0001 ≤ cam.ax)
    (hhi : cam.ax ≤ Real.pi / 2 - 0.0001) :
    ((updatePointerAndCamera cam ptr dt).1).ax = cam.ax
    ∧ ((updatePointerAndCamera cam ptr dt).1).dist = cam.dist
    ∧ ((updatePointerAndCamera cam ptr dt).1).az = cam.az + 2 * dt ^ 2
    ∧ ((updatePointerAndCameraP1 cam ptr dt).1).ax = cam.ax
    ∧ ((updatePointerAndCameraP1 cam ptr dt).1).az = cam.az
    ∧ ((updatePointerAndCameraP1 cam ptr dt).1).dist = cam.dist := by
  have hclamp : clamp cam.ax (-(Real.pi / 2) + 0.0001) (Real.pi / 2 - 0.0001)
      = cam.ax := by
    unfold clamp
    rw [min_eq_right hhi, max_eq_right hlo]
  refine ⟨?_, ?_, ?_, ?_, ?_, ?_⟩ <;>
    (simp [updatePointerAndCamera, updatePointerAndCameraP1, hdown, hvax, hvaz,
      hvdist, hclamp]
     try ring)

/-- Witness for the amended C8 from the rest state. -/
theorem rest_amended_witness :
    ((updatePointerAndCamera restCam ptrUp 1).1).ax = restCam.ax
    ∧ ((updatePointerAndCamera restCam ptrUp 1).1).dist = restCam.dist
    ∧ ((updatePointerAndCamera restCam ptrUp 1).1).az = restCam.az + 2 * (1:ℝ) ^ 2
    ∧ ((updatePointerAndCameraP1 restCam ptrUp 1).1).ax = restCam.ax
    ∧ ((updatePointerAndCameraP1 restCam ptrUp 1).1).az = restCam.az
    ∧ ((updatePointerAndCameraP1 restCam ptrUp 1).1).dist = restCam.dist :=
  rest_amended restCam ptrUp 1 rfl rfl rfl rfl
    (by have := Real.pi_gt_three
        show -(Real.pi / 2) + 0.0001 ≤ (0:ℝ)
        linarith)
    (by have := Real.pi_gt_three
        show (0:ℝ) ≤ Real.pi / 2 - 0.0001
        linarith)

/-- C7: at `dt = 0` with the pointer held down and a nonzero drag delta, the
division `(pointer.pos - pointer.prevPos) / dt` is a division by zero, and
the non-finite value it produces propagates into both drag-driven
velocities: the code has no guard, contradicting the specification. -/
theorem dt_zero_not_guarded :
    vaxAfterF initialOrbitCam ptrDrag 0 = none
    ∧ vazAfterF initialOrbitCam ptrDrag 0 = none :=
  ⟨vaxAfterF_ptrDrag_none, vazAfterF_ptrDrag_none⟩

end Treedee
